import Mathlib

/-!
Verification of the map-machine rendering core (`map_machine/mapper.py`).

The Python source is shallowly embedded: geographic coordinates and canvas
points are integer pairs, floating-point quantities (priorities, layers,
heights, scales) are rationals, and every drawing method invoked on the SVG
canvas is recorded as an explicit `DrawCall` value, so that a drawing pass
denotes the list of draw calls it emits, in emission order.

Python's `sorted` (a stable sort) is modelled by `List.insertionSort`, which
is stable for a total preorder; a Python `dict` (which iterates in insertion
order) is modelled by an association list in key-insertion order; a Python
`set` of identity-hashed objects (`set[RoadPart]`) is modelled by the list of
its insertions, since distinct insertions are never identified; the
enumeration order such a set exposes to `list(...)` is left as an explicit
parameter, since Python does not specify it.
-/

namespace MapMachine

/-- Geographic coordinates (`np.ndarray` of floats in the source). -/
abbrev Coord := Int × Int

/-- A canvas point (`np.ndarray`, result of `Flinger.fling`). -/
abbrev Pt := Int × Int

/-- A resolved color (the `colour.Color` type in the source). -/
abbrev Color := String

/-- The projection collaborator (`flinger.Flinger`): projects geographic
coordinates onto the canvas and reports a local scale.  `get_scale` takes an
optional coordinate, exactly like the Python method's optional argument. -/
structure Flinger where
  fling : Coord → Pt
  get_scale : Option Coord → ℚ
  size : Pt

/-- The style scheme collaborator (`scheme.Scheme`), reduced to the one
operation the mapper uses: color lookup by name. -/
structure Scheme where
  get_color : String → Color

/-- Modelled from the spec: `map_configuration.LabelMode` is not under
`src/`; the spec exposes a label display mode that is off (`NO`) or permits
labels. -/
inductive LabelMode where
  | no
  | main
  | all
deriving DecidableEq

/-- Modelled from the spec: `ui.BuildingMode` is not under `src/`; the spec
exposes flat and extruded building modes and contemplates configurations
carrying an unrecognized mode (spec section 7). -/
inductive BuildingMode where
  | flat
  | extruded
  | unrecognized
deriving DecidableEq

/-- Modelled from the spec: `map_configuration.MapConfiguration` is not under
`src/`; the spec exposes wireframe mode (on/off), a label mode, a building
mode and an overlap tolerance (0 = disabled).  `is_wireframe` reads the
wireframe flag. -/
structure MapConfiguration where
  label_mode : LabelMode
  building_mode : BuildingMode
  overlap : Nat
  wireframe : Bool
deriving DecidableEq

/-- Reads the wireframe flag: `MapConfiguration.is_wireframe` (modelled from
the spec's on/off wireframe mode). -/
def is_wireframe (c : MapConfiguration) : Bool :=
  c.wireframe

/-- An OSM node (`osm_reader.OSMNode`), reduced to what the mapper reads:
its identity and its `coordinates`. -/
structure OSMNode where
  id : Nat
  coordinates : Coord
deriving DecidableEq

/-- A road matcher (`scheme.RoadMatcher`), reduced to the two colors the
mapper reads. -/
structure RoadMatcher where
  color : Color
  border_color : Color
deriving DecidableEq

/-- A road figure (`figure.Road`), reduced to the fields the mapper reads:
outer and inner node rings, lane count, layer and matcher. -/
structure Road where
  outers : List (List OSMNode)
  inners : List (List OSMNode)
  lanes : Nat
  layer : ℚ
  matcher : RoadMatcher
deriving DecidableEq

/-- One directed road segment end (`road.RoadPart`): built as
`RoadPart(point_1, point_2, road.lanes, scale)` in `Map.draw_roads`. -/
structure RoadPart where
  point_1 : Pt
  point_2 : Pt
  lanes : Nat
  scale : ℚ
deriving DecidableEq

/-- A styled figure (`figure.StyledFigure`): carries a line style and
serializes its path for a given flinger (`get_path`). -/
structure LineStyle where
  style : String
  priority : ℚ

structure StyledFigure where
  line_style : LineStyle
  get_path : Flinger → String

/-- A building (`figure.Building`), reduced to the fields the mapper reads:
identity, `height` and `min_height`. -/
structure Building where
  id : Nat
  height : ℚ
  min_height : ℚ
deriving DecidableEq

/-- A point feature (`point.Point`), reduced to identity and priority. -/
structure Point where
  id : Nat
  priority : ℚ
deriving DecidableEq

/-- A vegetation marker (`constructor` tree). -/
structure Tree where
  id : Nat
deriving DecidableEq

/-- A crater marker. -/
structure Crater where
  id : Nat
deriving DecidableEq

/-- A direction sector. -/
structure DirectionSector where
  id : Nat
deriving DecidableEq

/-- The occupancy tracker parameters (`point.Occupied(width, height,
overlap)`); constructed but not consulted by the mapper itself, so only its
construction arguments are recorded. -/
structure Occupied where
  width : Int
  height : Int
  overlap : Nat
deriving DecidableEq

/-- The construction collaborator's output (`constructor.Constructor` after
`construct()`): the entity collections the mapper iterates.  `heights` is a
Python `set[float]` in the constructor, hence a `Finset`. -/
structure Constructor where
  figures : List StyledFigure
  roads : List Road
  trees : List Tree
  craters : List Crater
  direction_sectors : List DirectionSector
  buildings : List Building
  heights : Finset ℚ
  points : List Point

/-- One drawing method invocation on the SVG canvas, in the order the mapper
emits them.  `intersection` records the multiset of road parts the
`Intersection` is constructed from (modelled from the spec: `road.py` is not
under `src/`, and the spec's data model defines an `Intersection` as the set
of incident `RoadPart`s). -/
inductive DrawCall where
  | rect (size : Pt) (fill : Color)
  | path (d : String) (style : String)
  | road_draw (road : Road) (color : Color) (extra_width : Option Nat)
  | tree_draw (tree : Tree)
  | crater_draw (crater : Crater)
  | sector_draw (sector : DirectionSector)
  | building_draw (building : Building)
  | shade_group (buildings : List Building)
  | draw_walls (building : Building) (height previous_height scale : ℚ)
  | draw_roof (building : Building) (scale : ℚ)
  | draw_main (point : Point) (occupied : Option Occupied)
  | draw_extra (point : Point) (occupied : Option Occupied)
  | draw_texts (point : Point) (occupied : Option Occupied) (label_mode : LabelMode)
  | intersection (parts : Multiset RoadPart)
deriving DecidableEq

/-! ### Association lists in key-insertion order

A Python `dict` preserves key insertion order; both dictionaries built by the
mapper (`layered_roads` in `Map.draw` and `nodes` in `Map.draw_roads`) follow
the same pattern: ensure the key is present (bound to an empty list), then
append to its list.  `getVals` returns the list bound to a key, and `[]` for
an absent key. -/

def getVals {κ β : Type} [DecidableEq κ] (m : List (κ × List β)) (k : κ) : List β :=
  match m with
  | [] => []
  | e :: rest => if e.1 = k then e.2 else getVals rest k

def mapKeys {κ β : Type} (m : List (κ × List β)) : List κ :=
  m.map Prod.fst

def ensureKey {κ β : Type} [DecidableEq κ] (m : List (κ × List β)) (k : κ) :
    List (κ × List β) :=
  if k ∈ mapKeys m then m else m ++ [(k, [])]

def appendVal {κ β : Type} [DecidableEq κ] (m : List (κ × List β)) (k : κ) (b : β) :
    List (κ × List β) :=
  m.map (fun e => if e.1 = k then (e.1, e.2 ++ [b]) else e)

/-! ### `Map.__init__` -/

/-- The background color chosen in `Map.__init__`: the scheme's
`background_color`, overridden by the fixed `#111111` in wireframe mode. -/
def backgroundColor (scheme : Scheme) (configuration : MapConfiguration) : Color :=
  if is_wireframe configuration then "#111111"
  else scheme.get_color "background_color"

/-! ### `Map.draw`, stage by stage -/

/-- The stable ascending sort of figures by `line_style.priority`
(`sorted(constructor.figures, key=lambda x: x.line_style.priority)`). -/
def sortFigures (figures : List StyledFigure) : List StyledFigure :=
  List.insertionSort (fun x y => x.line_style.priority ≤ y.line_style.priority) figures

/-- Stage 2 of `Map.draw`: ways, sorted by priority; a figure whose path
serializes to the empty command string is skipped. -/
def drawWays (flinger : Flinger) (figures : List StyledFigure) : List DrawCall :=
  (sortFigures figures).flatMap (fun way =>
    let path_commands : String := way.get_path flinger
    if path_commands = "" then []
    else [DrawCall.path path_commands way.line_style.style])

/-- The `layered_roads` dictionary of `Map.draw`, grouping roads by their
`layer` key in encounter order. -/
def layeredRoads (roads : List Road) : List (ℚ × List Road) :=
  roads.foldl (fun m road => appendVal (ensureKey m road.layer) road.layer road) []

/-- Stage 3 of `Map.draw`: road layers in ascending order; inside a layer all
borders (`road.draw(..., border_color, 2)`) precede all fills
(`road.draw(..., color)`). -/
def drawLayeredRoads (roads : List Road) : List DrawCall :=
  let layered := layeredRoads roads
  (List.insertionSort (fun x y : ℚ => x ≤ y) (mapKeys layered)).flatMap (fun layer =>
    (getVals layered layer).map
      (fun road => DrawCall.road_draw road road.matcher.border_color (some 2))
    ++ (getVals layered layer).map
      (fun road => DrawCall.road_draw road road.matcher.color none))

/-- The wall/roof loop of `Map.draw_buildings` over the ascending height
list, threading `previous_height`: a building is skipped when
`building.height < height or building.min_height > height`; roofs are drawn
for buildings with `height == height`. -/
def bandLoop (buildings : List Building) (scale : ℚ) :
    ℚ → List ℚ → List DrawCall
  | _, [] => []
  | previous_height, height :: rest =>
    (buildings.flatMap (fun building =>
      if building.height < height ∨ building.min_height > height then []
      else [DrawCall.draw_walls building height previous_height scale]))
    ++ (buildings.flatMap (fun building =>
      if building.height = height then [DrawCall.draw_roof building scale] else []))
    ++ bandLoop buildings scale height rest

/-- The building stage `Map.draw_buildings`: flat mode draws each footprint once; any other mode
draws the shade group, then walls and roofs per ascending height band with
scale `flinger.get_scale() / 3.0`. -/
def drawBuildings (configuration : MapConfiguration) (flinger : Flinger)
    (constructor : Constructor) : List DrawCall :=
  if configuration.building_mode = BuildingMode.flat then
    constructor.buildings.map DrawCall.building_draw
  else
    let scale : ℚ := flinger.get_scale none / 3
    DrawCall.shade_group constructor.buildings
      :: bandLoop constructor.buildings scale 0
          (constructor.heights.sort (fun x y : ℚ => x ≤ y))

/-- The stable sort of points by the key `-priority`
(`sorted(constructor.points, key=lambda x: -x.priority)`). -/
def sortPoints (points : List Point) : List Point :=
  List.insertionSort (fun x y => -x.priority ≤ -y.priority) points

/-- The occupancy tracker constructed by `Map.draw`: absent when the overlap
tolerance is zero, else `Occupied(size[0], size[1], overlap)`. -/
def occupiedOf (configuration : MapConfiguration) (flinger : Flinger) :
    Option Occupied :=
  if configuration.overlap = 0 then none
  else some ⟨flinger.size.1, flinger.size.2, configuration.overlap⟩

/-- Stage 7 of `Map.draw`: three full passes over the priority-sorted point
list; the text pass guards each draw by `not is_wireframe() and label_mode !=
LabelMode.NO`. -/
def drawPoints (configuration : MapConfiguration) (flinger : Flinger)
    (points : List Point) : List DrawCall :=
  let occupied : Option Occupied := occupiedOf configuration flinger
  let nodes : List Point := sortPoints points
  (nodes.map (fun node => DrawCall.draw_main node occupied))
  ++ (nodes.map (fun point => DrawCall.draw_extra point occupied))
  ++ (nodes.flatMap (fun point =>
        if is_wireframe configuration = false
            ∧ configuration.label_mode ≠ LabelMode.no then
          [DrawCall.draw_texts point occupied configuration.label_mode]
        else []))

/-- The compositor `Map.draw`: the full fixed stage order. -/
def draw (configuration : MapConfiguration) (scheme : Scheme) (flinger : Flinger)
    (constructor : Constructor) : List DrawCall :=
  DrawCall.rect flinger.size (backgroundColor scheme configuration)
    :: (drawWays flinger constructor.figures
        ++ (drawLayeredRoads constructor.roads
        ++ (constructor.trees.map DrawCall.tree_draw
        ++ (constructor.craters.map DrawCall.crater_draw
        ++ (constructor.direction_sectors.map DrawCall.sector_draw
        ++ (drawBuildings configuration flinger constructor
        ++ drawPoints configuration flinger constructor.points))))))

/-! ### `Map.draw_roads` -/

/-- Consecutive node pairs of a ring (`range(len(ring) - 1)` with
`ring[index], ring[index + 1]`). -/
def consecutivePairs {α : Type} (l : List α) : List (α × α) :=
  l.zip l.tail

/-- The body of the segment loop of `Map.draw_roads` for one consecutive
node pair: build the two opposing parts and add each to its start node's
accumulated set. -/
def addSegment (flinger : Flinger) (lanes : Nat)
    (m : List (OSMNode × List RoadPart)) (e : OSMNode × OSMNode) :
    List (OSMNode × List RoadPart) :=
  let point_1 : Pt := flinger.fling e.1.coordinates
  let point_2 : Pt := flinger.fling e.2.coordinates
  let scale : ℚ := flinger.get_scale (some e.1.coordinates)
  let part_1 : RoadPart := ⟨point_1, point_2, lanes, scale⟩
  let part_2 : RoadPart := ⟨point_2, point_1, lanes, scale⟩
  appendVal (appendVal (ensureKey (ensureKey m e.1) e.2) e.1 part_1) e.2 part_2

/-- The `nodes` dictionary of `Map.draw_roads` after both loops: per node,
the accumulated road parts (a `set[RoadPart]` of identity-distinct objects,
kept in insertion order). -/
def collectParts (flinger : Flinger) (roads : List Road) :
    List (OSMNode × List RoadPart) :=
  roads.foldl (fun m road =>
    (consecutivePairs (road.outers.headD [])).foldl (addSegment flinger road.lanes) m) []

/-- The junction operation `Map.draw_roads`: emit one `Intersection` per node whose part set has at
least four members.  `enum` is the unspecified enumeration order Python's
`list(parts)` imposes on the set. -/
def drawRoads (flinger : Flinger) (enum : List RoadPart → List RoadPart)
    (roads : List Road) : List DrawCall :=
  (collectParts flinger roads).flatMap (fun e =>
    if e.2.length < 4 then []
    else [DrawCall.intersection (Multiset.ofList (enum e.2))])

/-! ### Spec-side definitions -/

/-- The multiset of road-segment ends incident to each node: every
consecutive node pair of a road's first outer ring contributes one end at
each of its two nodes.  (Spec-side count used to state the junction claims.) -/
def segmentEnds (roads : List Road) : List OSMNode :=
  roads.flatMap (fun road =>
    (consecutivePairs (road.outers.headD [])).flatMap (fun e => [e.1, e.2]))

/-- The number of road-segment ends incident to a node. -/
def incidentEnds (roads : List Road) (n : OSMNode) : Nat :=
  (segmentEnds roads).count n

/-- The wall/roof loop as the spec's amended words describe it: a building
receives a wall band at height `h` exactly when
`min_height ≤ h ≤ height` (inclusive upper bound). -/
def bandLoopSpec (buildings : List Building) (scale : ℚ) :
    ℚ → List ℚ → List DrawCall
  | _, [] => []
  | previous_height, height :: rest =>
    (buildings.flatMap (fun building =>
      if building.min_height ≤ height ∧ height ≤ building.height then
        [DrawCall.draw_walls building height previous_height scale]
      else []))
    ++ (buildings.flatMap (fun building =>
      if building.height = height then [DrawCall.draw_roof building scale] else []))
    ++ bandLoopSpec buildings scale height rest

/-! ### Association-list lemmas -/

theorem getVals_append_nilkey {κ β : Type} [DecidableEq κ]
    (m : List (κ × List β)) (k x : κ) :
    getVals (m ++ [(k, [])]) x = getVals m x := by
  induction m with
  | nil => simp only [List.nil_append, getVals]; split <;> rfl
  | cons e rest ih =>
    simp only [List.cons_append, getVals]
    split
    · rfl
    · exact ih

theorem getVals_ensureKey {κ β : Type} [DecidableEq κ]
    (m : List (κ × List β)) (k x : κ) :
    getVals (ensureKey m k) x = getVals m x := by
  unfold ensureKey
  split
  · rfl
  · exact getVals_append_nilkey m k x

theorem mapKeys_appendVal {κ β : Type} [DecidableEq κ]
    (m : List (κ × List β)) (k : κ) (b : β) :
    mapKeys (appendVal m k b) = mapKeys m := by
  simp only [appendVal, mapKeys, List.map_map]
  apply List.map_congr_left
  intro e _
  by_cases h : e.1 = k <;> simp [h]

theorem mem_mapKeys_ensureKey_iff {κ β : Type} [DecidableEq κ]
    (m : List (κ × List β)) (k x : κ) :
    x ∈ mapKeys (ensureKey m k) ↔ x ∈ mapKeys m ∨ x = k := by
  unfold ensureKey
  split
  next h =>
    constructor
    · exact fun hx => Or.inl hx
    · rintro (hx | rfl)
      · exact hx
      · exact h
  next h =>
    simp [mapKeys]

theorem nodup_mapKeys_ensureKey {κ β : Type} [DecidableEq κ]
    (m : List (κ × List β)) (k : κ) (h : (mapKeys m).Nodup) :
    (mapKeys (ensureKey m k)).Nodup := by
  unfold ensureKey
  split
  · exact h
  next hk =>
    simp only [mapKeys, List.map_append, List.map_cons, List.map_nil]
    rw [List.nodup_append]
    exact ⟨h, List.nodup_singleton k, by simpa [mapKeys] using hk⟩

theorem getVals_appendVal {κ β : Type} [DecidableEq κ]
    (m : List (κ × List β)) (k x : κ) (b : β) :
    getVals (appendVal m k b) x =
      if x = k ∧ k ∈ mapKeys m then getVals m x ++ [b] else getVals m x := by
  induction m with
  | nil => simp [appendVal, getVals, mapKeys]
  | cons e rest ih =>
    by_cases hek : e.1 = k
    · by_cases hex : e.1 = x
      · subst hex
        subst hek
        simp [appendVal, getVals, mapKeys]
      · subst hek
        have hxk : ¬ x = e.1 := fun h => hex h.symm
        have h1 : getVals (appendVal (e :: rest) e.1 b) x
            = getVals (appendVal rest e.1 b) x := by
          simp [appendVal, getVals, hex]
        rw [h1, ih]
        simp [getVals, hex, hxk]
    · by_cases hex : e.1 = x
      · subst hex
        have hxk : ¬ e.1 = k := hek
        simp [appendVal, getVals, hek, fun h : e.1 = k => hek h]
      · have h1 : getVals (appendVal (e :: rest) k b) x
            = getVals (appendVal rest k b) x := by
          simp [appendVal, getVals, hek, hex]
        have h2 : getVals (e :: rest) x = getVals rest x := by
          simp [getVals, hex]
        have hiff : (x = k ∧ k ∈ mapKeys (e :: rest)) ↔ (x = k ∧ k ∈ mapKeys rest) := by
          simp only [mapKeys, List.map_cons, List.mem_cons]
          constructor
          · rintro ⟨rfl, (h | h)⟩
            · exact absurd h.symm hek
            · exact ⟨rfl, h⟩
          · rintro ⟨rfl, h⟩
            exact ⟨rfl, Or.inr h⟩
        rw [h1, ih, h2, if_congr hiff rfl rfl]

theorem getVals_of_not_mem_mapKeys {κ β : Type} [DecidableEq κ]
    {m : List (κ × List β)} {x : κ} (h : x ∉ mapKeys m) :
    getVals m x = [] := by
  induction m with
  | nil => rfl
  | cons e rest ih =>
    simp only [mapKeys, List.map_cons, List.mem_cons] at h
    push_neg at h
    simp only [getVals, if_neg (fun he : e.1 = x => h.1 he.symm)]
    exact ih (by simpa [mapKeys] using h.2)

/-! ### `draw_roads` accumulation lemmas -/

theorem getVals_addSegment (flinger : Flinger) (lanes : Nat)
    (m : List (OSMNode × List RoadPart)) (e : OSMNode × OSMNode) (x : OSMNode) :
    getVals (addSegment flinger lanes m e) x =
      getVals m x
        ++ (if e.1 = x then
              [RoadPart.mk (flinger.fling e.1.coordinates) (flinger.fling e.2.coordinates)
                lanes (flinger.get_scale (some e.1.coordinates))] else [])
        ++ (if e.2 = x then
              [RoadPart.mk (flinger.fling e.2.coordinates) (flinger.fling e.1.coordinates)
                lanes (flinger.get_scale (some e.1.coordinates))] else []) := by
  have he1 : e.1 ∈ mapKeys (ensureKey (ensureKey m e.1) e.2) :=
    (mem_mapKeys_ensureKey_iff _ e.2 e.1).mpr
      (Or.inl ((mem_mapKeys_ensureKey_iff m e.1 e.1).mpr (Or.inr rfl)))
  have he2 : e.2 ∈ mapKeys (ensureKey (ensureKey m e.1) e.2) :=
    (mem_mapKeys_ensureKey_iff _ e.2 e.2).mpr (Or.inr rfl)
  simp only [addSegment]
  rw [getVals_appendVal, mapKeys_appendVal, getVals_appendVal,
    getVals_ensureKey, getVals_ensureKey]
  by_cases h1 : e.1 = x
  · subst h1
    by_cases h2 : e.2 = e.1
    · rw [h2] at he1
      simp [he1, h2, List.append_assoc]
    · simp [he1, h2, show ¬ e.1 = e.2 from fun h => h2 h.symm, List.append_assoc]
  · by_cases h2 : e.2 = x
    · subst h2
      simp [he2, h1, show ¬ e.2 = e.1 from fun h => h1 h.symm, List.append_assoc]
    · simp [h1, h2, show ¬ x = e.1 from fun h => h1 h.symm,
        show ¬ x = e.2 from fun h => h2 h.symm]

theorem mapKeys_addSegment_sub (flinger : Flinger) (lanes : Nat)
    (m : List (OSMNode × List RoadPart)) (e : OSMNode × OSMNode) (x : OSMNode)
    (h : x ∈ mapKeys (addSegment flinger lanes m e)) :
    x ∈ mapKeys m ∨ x = e.1 ∨ x = e.2 := by
  simp only [addSegment] at h
  rw [mapKeys_appendVal, mapKeys_appendVal] at h
  rcases (mem_mapKeys_ensureKey_iff _ e.2 x).mp h with h' | h'
  · rcases (mem_mapKeys_ensureKey_iff m e.1 x).mp h' with h'' | h''
    · exact Or.inl h''
    · exact Or.inr (Or.inl h'')
  · exact Or.inr (Or.inr h')

theorem getVals_foldl_addSegment_length (flinger : Flinger) (lanes : Nat)
    (ps : List (OSMNode × OSMNode)) (m : List (OSMNode × List RoadPart)) (x : OSMNode) :
    (getVals (ps.foldl (addSegment flinger lanes) m) x).length
      = (getVals m x).length + (ps.flatMap (fun e => [e.1, e.2])).count x := by
  induction ps generalizing m with
  | nil => simp
  | cons p ps ih =>
    simp only [List.foldl_cons, List.flatMap_cons, List.count_append]
    rw [ih, getVals_addSegment]
    have hc : List.count x [p.1, p.2]
        = (if p.1 = x then 1 else 0) + (if p.2 = x then 1 else 0) := by
      by_cases h1 : p.1 = x <;> by_cases h2 : p.2 = x <;>
        simp [List.count_cons, h1, h2]
    rw [hc]
    by_cases h1 : p.1 = x <;> by_cases h2 : p.2 = x <;>
      simp [h1, h2, List.length_append] <;> omega

theorem point1_foldl_addSegment (flinger : Flinger) (lanes : Nat)
    (ps : List (OSMNode × OSMNode)) (m : List (OSMNode × List RoadPart)) (x : OSMNode)
    (hm : ∀ p ∈ getVals m x, p.point_1 = flinger.fling x.coordinates) :
    ∀ p ∈ getVals (ps.foldl (addSegment flinger lanes) m) x,
      p.point_1 = flinger.fling x.coordinates := by
  induction ps generalizing m with
  | nil => exact hm
  | cons q ps ih =>
    refine ih _ ?_
    intro p hp
    rw [getVals_addSegment] at hp
    simp only [List.append_assoc, List.mem_append] at hp
    rcases hp with hp | hp | hp
    · exact hm p hp
    · by_cases hx : q.1 = x
      · simp only [if_pos hx, List.mem_singleton] at hp
        subst hp
        simp [hx]
      · simp [if_neg hx] at hp
    · by_cases hx : q.2 = x
      · simp only [if_pos hx, List.mem_singleton] at hp
        subst hp
        simp [hx]
      · simp [if_neg hx] at hp

theorem mapKeys_foldl_addSegment_sub (flinger : Flinger) (lanes : Nat)
    (ps : List (OSMNode × OSMNode)) (m : List (OSMNode × List RoadPart)) (x : OSMNode)
    (h : x ∈ mapKeys (ps.foldl (addSegment flinger lanes) m)) :
    x ∈ mapKeys m ∨ ∃ e ∈ ps, x = e.1 ∨ x = e.2 := by
  induction ps generalizing m with
  | nil => exact Or.inl h
  | cons q ps ih =>
    rcases ih _ h with h' | h'
    · rcases mapKeys_addSegment_sub flinger lanes m q x h' with h'' | h'' | h''
      · exact Or.inl h''
      · exact Or.inr ⟨q, List.mem_cons_self q ps, Or.inl h''⟩
      · exact Or.inr ⟨q, List.mem_cons_self q ps, Or.inr h''⟩
    · obtain ⟨e, he, hxe⟩ := h'
      exact Or.inr ⟨e, List.mem_cons_of_mem q he, hxe⟩

theorem getVals_collectParts_length (flinger : Flinger) (roads : List Road) (x : OSMNode) :
    (getVals (collectParts flinger roads) x).length = incidentEnds roads x := by
  suffices h : ∀ (rs : List Road) (m : List (OSMNode × List RoadPart)),
      (getVals (rs.foldl (fun m road =>
        (consecutivePairs (road.outers.headD [])).foldl (addSegment flinger road.lanes) m) m) x).length
        = (getVals m x).length + (segmentEnds rs).count x by
    simpa [collectParts, getVals, incidentEnds] using h roads []
  intro rs
  induction rs with
  | nil => simp [segmentEnds]
  | cons r rs ih =>
    intro m
    simp only [List.foldl_cons, segmentEnds, List.flatMap_cons, List.count_append]
    rw [ih, getVals_foldl_addSegment_length]
    simp only [segmentEnds]
    omega

theorem point1_collectParts (flinger : Flinger) (roads : List Road) (x : OSMNode) :
    ∀ p ∈ getVals (collectParts flinger roads) x,
      p.point_1 = flinger.fling x.coordinates := by
  suffices h : ∀ (rs : List Road) (m : List (OSMNode × List RoadPart)),
      (∀ p ∈ getVals m x, p.point_1 = flinger.fling x.coordinates) →
      ∀ p ∈ getVals (rs.foldl (fun m road =>
        (consecutivePairs (road.outers.headD [])).foldl (addSegment flinger road.lanes) m) m) x,
        p.point_1 = flinger.fling x.coordinates by
    exact h roads [] (by intro p hp; simp [getVals] at hp)
  intro rs
  induction rs with
  | nil => exact fun m hm => hm
  | cons r rs ih =>
    intro m hm
    exact ih _ (point1_foldl_addSegment flinger r.lanes _ m x hm)

theorem mapKeys_collectParts_sub (flinger : Flinger) (roads : List Road) (x : OSMNode)
    (h : x ∈ mapKeys (collectParts flinger roads)) : x ∈ segmentEnds roads := by
  suffices hgen : ∀ (rs : List Road) (m : List (OSMNode × List RoadPart)),
      x ∈ mapKeys (rs.foldl (fun m road =>
        (consecutivePairs (road.outers.headD [])).foldl (addSegment flinger road.lanes) m) m)
      → x ∈ mapKeys m ∨ x ∈ segmentEnds rs by
    rcases hgen roads [] h with h' | h'
    · simp [mapKeys] at h'
    · exact h'
  intro rs
  induction rs with
  | nil => exact fun m hm => Or.inl hm
  | cons r rs ih =>
    intro m hm
    rcases ih _ hm with h' | h'
    · rcases mapKeys_foldl_addSegment_sub flinger r.lanes _ m x h' with h'' | h''
      · exact Or.inl h''
      · obtain ⟨e, he, hxe⟩ := h''
        refine Or.inr ?_
        simp only [segmentEnds, List.flatMap_cons, List.mem_append]
        refine Or.inl ?_
        simp only [List.mem_flatMap]
        refine ⟨e, he, ?_⟩
        rcases hxe with rfl | rfl <;> simp
    · refine Or.inr ?_
      simp only [segmentEnds, List.flatMap_cons, List.mem_append]
      right
      simpa [segmentEnds] using h'

theorem mem_ring_of_mem_segmentEnds (roads : List Road) (x : OSMNode)
    (h : x ∈ segmentEnds roads) :
    x ∈ roads.flatMap (fun road => road.outers.headD []) := by
  simp only [segmentEnds, List.mem_flatMap] at h ⊢
  obtain ⟨road, hr, hx⟩ := h
  refine ⟨road, hr, ?_⟩
  obtain ⟨e, he, hxe⟩ := hx
  obtain ⟨a, b⟩ := e
  have he' : (a, b) ∈ (road.outers.headD []).zip (road.outers.headD []).tail := he
  have hmem := List.of_mem_zip he'
  have hab : x = a ∨ x = b := by simpa using hxe
  rcases hab with rfl | rfl
  · exact hmem.1
  · exact (List.tail_sublist _).subset hmem.2

theorem nodup_mapKeys_addSegment (flinger : Flinger) (lanes : Nat)
    (m : List (OSMNode × List RoadPart)) (e : OSMNode × OSMNode)
    (h : (mapKeys m).Nodup) : (mapKeys (addSegment flinger lanes m e)).Nodup := by
  simp only [addSegment]
  rw [mapKeys_appendVal, mapKeys_appendVal]
  exact nodup_mapKeys_ensureKey _ e.2 (nodup_mapKeys_ensureKey m e.1 h)

theorem nodup_mapKeys_collectParts (flinger : Flinger) (roads : List Road) :
    (mapKeys (collectParts flinger roads)).Nodup := by
  suffices hgen : ∀ (rs : List Road) (m : List (OSMNode × List RoadPart)),
      (mapKeys m).Nodup →
      (mapKeys (rs.foldl (fun m road =>
        (consecutivePairs (road.outers.headD [])).foldl (addSegment flinger road.lanes) m) m)).Nodup by
    exact hgen roads [] (by simp [mapKeys])
  intro rs
  induction rs with
  | nil => exact fun m hm => hm
  | cons r rs ih =>
    intro m hm
    refine ih _ ?_
    have hinner : ∀ (ps : List (OSMNode × OSMNode)) (m : List (OSMNode × List RoadPart)),
        (mapKeys m).Nodup → (mapKeys (ps.foldl (addSegment flinger r.lanes) m)).Nodup := by
      intro ps
      induction ps with
      | nil => exact fun m hm => hm
      | cons q ps ihq =>
        intro m hm
        exact ihq _ (nodup_mapKeys_addSegment flinger r.lanes m q hm)
    exact hinner _ m hm

/-! ### Grouping lemmas (`layered_roads`) -/

theorem getVals_layeredRoads_aux (roads : List Road) :
    ∀ (m : List (ℚ × List Road)) (k : ℚ),
      getVals (roads.foldl
        (fun m road => appendVal (ensureKey m road.layer) road.layer road) m) k
        = getVals m k ++ roads.filter (fun road => decide (road.layer = k)) := by
  induction roads with
  | nil => intro m k; simp
  | cons r roads ih =>
    intro m k
    simp only [List.foldl_cons, List.filter_cons]
    rw [ih]
    have hmem : r.layer ∈ mapKeys (ensureKey m r.layer) :=
      (mem_mapKeys_ensureKey_iff m r.layer r.layer).mpr (Or.inr rfl)
    rw [getVals_appendVal, getVals_ensureKey]
    by_cases hk : r.layer = k
    · subst hk
      simp [hmem]
    · simp [hk, show ¬ k = r.layer from fun h => hk h.symm]

theorem getVals_layeredRoads (roads : List Road) (k : ℚ) :
    getVals (layeredRoads roads) k
      = roads.filter (fun road => decide (road.layer = k)) := by
  simpa [layeredRoads, getVals] using getVals_layeredRoads_aux roads [] k

theorem mem_mapKeys_layeredRoads_aux (roads : List Road) :
    ∀ (m : List (ℚ × List Road)) (k : ℚ),
      k ∈ mapKeys (roads.foldl
        (fun m road => appendVal (ensureKey m road.layer) road.layer road) m)
        ↔ k ∈ mapKeys m ∨ k ∈ roads.map Road.layer := by
  induction roads with
  | nil => intro m k; simp
  | cons r roads ih =>
    intro m k
    simp only [List.foldl_cons, List.map_cons, List.mem_cons]
    rw [ih, mapKeys_appendVal, mem_mapKeys_ensureKey_iff]
    tauto

theorem mem_mapKeys_layeredRoads (roads : List Road) (k : ℚ) :
    k ∈ mapKeys (layeredRoads roads) ↔ k ∈ roads.map Road.layer := by
  rw [layeredRoads, mem_mapKeys_layeredRoads_aux roads [] k]
  simp [mapKeys]

theorem nodup_mapKeys_layeredRoads (roads : List Road) :
    (mapKeys (layeredRoads roads)).Nodup := by
  suffices hgen : ∀ (rs : List Road) (m : List (ℚ × List Road)),
      (mapKeys m).Nodup →
      (mapKeys (rs.foldl
        (fun m road => appendVal (ensureKey m road.layer) road.layer road) m)).Nodup by
    exact hgen roads [] (by simp [mapKeys])
  intro rs
  induction rs with
  | nil => exact fun m hm => hm
  | cons r rs ih =>
    intro m hm
    refine ih _ ?_
    rw [mapKeys_appendVal]
    exact nodup_mapKeys_ensureKey m r.layer hm

/-! ### Loop-shape and stable-sort lemmas -/

theorem flatMap_ite {α β : Type} (p : α → Prop) [DecidablePred p] (f : α → β)
    (l : List α) :
    (l.flatMap fun x => if p x then [f x] else [])
      = (l.filter (fun x => decide (p x))).map f := by
  induction l with
  | nil => rfl
  | cons a t ih =>
    by_cases h : p a <;> simp [List.filter_cons, h, ih]

theorem flatMap_ite_not {α β : Type} (p : α → Prop) [DecidablePred p] (f : α → β)
    (l : List α) :
    (l.flatMap fun x => if p x then [] else [f x])
      = (l.filter (fun x => decide ¬ p x)).map f := by
  induction l with
  | nil => rfl
  | cons a t ih =>
    by_cases h : p a <;> simp [List.filter_cons, h, ih]

theorem pairwise_filter_of_class {α : Type} (r : α → α → Prop) (p : α → Bool)
    (hp : ∀ x y, p x = true → p y = true → r x y) (l : List α) :
    (l.filter p).Pairwise r := by
  induction l with
  | nil => simp
  | cons a t ih =>
    by_cases ha : p a
    · rw [List.filter_cons_of_pos ha]
      exact List.Pairwise.cons
        (fun b hb => hp a b ha (List.of_mem_filter hb)) ih
    · rwa [List.filter_cons_of_neg (by simpa using ha)]

theorem filter_insertionSort {α : Type} (r : α → α → Prop) [DecidableRel r]
    [IsTotal α r] [IsTrans α r] (p : α → Bool)
    (hp : ∀ x y, p x = true → p y = true → r x y) (l : List α) :
    (List.insertionSort r l).filter p = l.filter p := by
  have hpair : (l.filter p).Pairwise r := pairwise_filter_of_class r p hp l
  have hsub : List.Sublist (l.filter p) (List.insertionSort r l) :=
    List.sublist_insertionSort hpair (List.filter_sublist l)
  have h0 : (l.filter p).filter p = l.filter p :=
    List.filter_eq_self.mpr (fun a ha => List.of_mem_filter ha)
  have hsub2 : List.Sublist (l.filter p) ((List.insertionSort r l).filter p) :=
    h0 ▸ hsub.filter p
  have hperm : ((List.insertionSort r l).filter p).Perm (l.filter p) :=
    (List.perm_insertionSort r l).filter p
  exact (hsub2.eq_of_length hperm.length_eq.symm).symm

/-! ### Claim theorems: the road-junction operation -/

/-- C2: `draw_roads` emits exactly one `Intersection` fill per accumulated
node whose road-part set has cardinality at least four — the emitted calls
are precisely the qualifying entries of the node dictionary, in dictionary
order, whose keys are pairwise distinct — and a node with fewer parts emits
nothing. -/
theorem claim_C2 (flinger : Flinger) (enum : List RoadPart → List RoadPart)
    (roads : List Road) :
    drawRoads flinger enum roads
      = ((collectParts flinger roads).filter (fun e => decide (4 ≤ e.2.length))).map
          (fun e => DrawCall.intersection (Multiset.ofList (enum e.2)))
    ∧ (mapKeys (collectParts flinger roads)).Nodup := by
  constructor
  · rw [drawRoads, flatMap_ite_not]
    congr 1
    apply List.filter_congr
    intro e _
    simp [Nat.not_lt]
  · exact nodup_mapKeys_collectParts flinger roads

/-- C6: the draw-roads output does not depend on the enumeration order that
Python's `list(parts)` imposes on each accumulated part set: any two
permutation-enumerations yield the identical draw-call sequence (the
`Intersection` is determined by the multiset of parts). -/
theorem claim_C6 (flinger : Flinger) (roads : List Road)
    (enum1 enum2 : List RoadPart → List RoadPart)
    (h1 : ∀ l, (enum1 l).Perm l) (h2 : ∀ l, (enum2 l).Perm l) :
    drawRoads flinger enum1 roads = drawRoads flinger enum2 roads := by
  simp only [drawRoads]
  have hfun : (fun e : OSMNode × List RoadPart =>
      if e.2.length < 4 then ([] : List DrawCall)
      else [DrawCall.intersection (Multiset.ofList (enum1 e.2))])
      = (fun e : OSMNode × List RoadPart =>
      if e.2.length < 4 then []
      else [DrawCall.intersection (Multiset.ofList (enum2 e.2))]) := by
    funext e
    by_cases h : e.2.length < 4
    · simp [h]
    · simp only [if_neg h]
      have hms : Multiset.ofList (enum1 e.2) = Multiset.ofList (enum2 e.2) :=
        Quot.sound ((h1 e.2).trans (h2 e.2).symm)
      rw [hms]
  rw [hfun]

/-- C9: for every node, the accumulated road-part set has exactly one member
per road-segment end incident to that node (each consecutive node pair
contributes two directed parts, one to each endpoint), and every part
accumulated at a node points away from it: its first point is the node's
projection. -/
theorem claim_C9 (flinger : Flinger) (roads : List Road) (n : OSMNode) :
    (getVals (collectParts flinger roads) n).length = incidentEnds roads n
    ∧ ∀ part ∈ getVals (collectParts flinger roads) n,
        part.point_1 = flinger.fling n.coordinates :=
  ⟨getVals_collectParts_length flinger roads n, point1_collectParts flinger roads n⟩

/-- C10: road parts arise only from consecutive node pairs of each road's
first outer ring: a node not on any road's first outer ring accumulates no
parts and never appears as a key of the node dictionary (hence never yields
an `Intersection`); moreover forgetting every ring but the first outer one
leaves the accumulated dictionary unchanged. -/
theorem claim_C10 (flinger : Flinger) (roads : List Road) (n : OSMNode)
    (h : n ∉ roads.flatMap (fun road => road.outers.headD [])) :
    getVals (collectParts flinger roads) n = []
    ∧ n ∉ mapKeys (collectParts flinger roads)
    ∧ collectParts flinger (roads.map (fun road =>
        { road with outers := [road.outers.headD []], inners := [] }))
      = collectParts flinger roads := by
  have hkeys : n ∉ mapKeys (collectParts flinger roads) := fun hk =>
    h (mem_ring_of_mem_segmentEnds roads n (mapKeys_collectParts_sub flinger roads n hk))
  refine ⟨getVals_of_not_mem_mapKeys hkeys, hkeys, ?_⟩
  simp only [collectParts]
  rw [List.foldl_map]
  refine congrArg (fun f => List.foldl f ([] : List (OSMNode × List RoadPart)) roads) ?_
  funext m road
  simp

/-! ### Claim theorems: the compositor's figure, road-layer and point stages -/

/-- C4: `Map.draw` partitions roads by layer key and processes layers in
ascending numeric order; within each layer every road's border draw precedes
every road's fill draw, each in input order. -/
theorem claim_C4 (roads : List Road) :
    ∃ ls : List ℚ,
      ls.Nodup
      ∧ ls.Sorted (fun x y : ℚ => x ≤ y)
      ∧ (∀ k : ℚ, k ∈ ls ↔ k ∈ roads.map Road.layer)
      ∧ drawLayeredRoads roads = ls.flatMap (fun layer =>
          ((roads.filter (fun road => decide (road.layer = layer))).map
            (fun road => DrawCall.road_draw road road.matcher.border_color (some 2)))
          ++ ((roads.filter (fun road => decide (road.layer = layer))).map
            (fun road => DrawCall.road_draw road road.matcher.color none))) := by
  haveI : IsTotal ℚ (fun x y : ℚ => x ≤ y) := ⟨le_total⟩
  haveI : IsTrans ℚ (fun x y : ℚ => x ≤ y) := ⟨fun _ _ _ => le_trans⟩
  refine ⟨List.insertionSort (fun x y : ℚ => x ≤ y) (mapKeys (layeredRoads roads)),
    ?_, ?_, ?_, ?_⟩
  · exact ((List.perm_insertionSort _ _).nodup_iff).mpr (nodup_mapKeys_layeredRoads roads)
  · exact List.sorted_insertionSort _ _
  · intro k
    rw [List.mem_insertionSort]
    exact mem_mapKeys_layeredRoads roads k
  · simp only [drawLayeredRoads]
    have hfun : (fun layer => (getVals (layeredRoads roads) layer).map
        (fun road => DrawCall.road_draw road road.matcher.border_color (some 2))
        ++ (getVals (layeredRoads roads) layer).map
        (fun road => DrawCall.road_draw road road.matcher.color none))
        = (fun layer =>
          ((roads.filter (fun road => decide (road.layer = layer))).map
            (fun road => DrawCall.road_draw road road.matcher.border_color (some 2)))
          ++ ((roads.filter (fun road => decide (road.layer = layer))).map
            (fun road => DrawCall.road_draw road road.matcher.color none))) := by
      funext layer
      rw [getVals_layeredRoads]
    rw [hfun]

/-- C5: `Map.draw` emits the styled figures sorted ascending by style
priority under a stable order (each equal-priority class keeps its input
order), and a figure whose path serializes to the empty command string is
skipped, contributing nothing. -/
theorem claim_C5 (flinger : Flinger) (figures : List StyledFigure) :
    (sortFigures figures).Perm figures
    ∧ (sortFigures figures).Sorted
        (fun x y => x.line_style.priority ≤ y.line_style.priority)
    ∧ (∀ q : ℚ, (sortFigures figures).filter
          (fun f => decide (f.line_style.priority = q))
        = figures.filter (fun f => decide (f.line_style.priority = q)))
    ∧ drawWays flinger figures
      = ((sortFigures figures).filter
            (fun w => decide (¬ w.get_path flinger = ""))).map
          (fun w => DrawCall.path (w.get_path flinger) w.line_style.style) := by
  haveI : IsTotal StyledFigure
      (fun x y => x.line_style.priority ≤ y.line_style.priority) :=
    ⟨fun a b => le_total _ _⟩
  haveI : IsTrans StyledFigure
      (fun x y => x.line_style.priority ≤ y.line_style.priority) :=
    ⟨fun _ _ _ hab hbc => le_trans hab hbc⟩
  refine ⟨List.perm_insertionSort _ _, List.sorted_insertionSort _ _, ?_, ?_⟩
  · intro q
    apply filter_insertionSort
    intro x y hx hy
    have hx' : x.line_style.priority = q := of_decide_eq_true hx
    have hy' : y.line_style.priority = q := of_decide_eq_true hy
    simp only [hx', hy']
    exact le_refl q
  · simp only [drawWays]
    rw [flatMap_ite_not]

/-- C3: `Map.draw` renders points in three full passes over the point list
sorted by descending priority under a stable order, the same sorted list in
every pass — first every main icon, then every extra icon, then every text
label, the text pass emitting only when the configuration is not wireframe
and the label mode is not `NO`. -/
theorem claim_C3 (configuration : MapConfiguration) (flinger : Flinger)
    (points : List Point) :
    (sortPoints points).Perm points
    ∧ (sortPoints points).Sorted (fun x y => y.priority ≤ x.priority)
    ∧ (∀ q : ℚ, (sortPoints points).filter (fun pt => decide (pt.priority = q))
        = points.filter (fun pt => decide (pt.priority = q)))
    ∧ drawPoints configuration flinger points
      = ((sortPoints points).map
            (fun pt => DrawCall.draw_main pt (occupiedOf configuration flinger)))
        ++ ((sortPoints points).map
            (fun pt => DrawCall.draw_extra pt (occupiedOf configuration flinger)))
        ++ (if is_wireframe configuration = false
              ∧ configuration.label_mode ≠ LabelMode.no then
            (sortPoints points).map (fun pt =>
              DrawCall.draw_texts pt (occupiedOf configuration flinger)
                configuration.label_mode)
          else []) := by
  haveI : IsTotal Point (fun x y => -x.priority ≤ -y.priority) :=
    ⟨fun a b => le_total _ _⟩
  haveI : IsTrans Point (fun x y => -x.priority ≤ -y.priority) :=
    ⟨fun _ _ _ hab hbc => le_trans hab hbc⟩
  refine ⟨List.perm_insertionSort _ _, ?_, ?_, ?_⟩
  · exact (List.sorted_insertionSort _ points).imp (fun h => neg_le_neg_iff.mp h)
  · intro q
    apply filter_insertionSort
    intro x y hx hy
    have hx' : x.priority = q := of_decide_eq_true hx
    have hy' : y.priority = q := of_decide_eq_true hy
    simp only [hx', hy']
    exact le_refl _
  · simp only [drawPoints]
    rw [flatMap_ite]
    by_cases hc : is_wireframe configuration = false
        ∧ configuration.label_mode ≠ LabelMode.no
    · simp [hc]
    · simp [hc]

/-! ### Claim theorems: wireframe mode -/

/-- Discriminates text-label draw calls. -/
def isTexts : DrawCall → Bool
  | DrawCall.draw_texts _ _ _ => true
  | _ => false

theorem isTexts_bandLoop (buildings : List Building) (scale : ℚ) :
    ∀ (previous_height : ℚ) (hs : List ℚ),
      ∀ c ∈ bandLoop buildings scale previous_height hs, isTexts c = false := by
  intro previous_height hs
  induction hs generalizing previous_height with
  | nil => simp [bandLoop]
  | cons h rest ih =>
    intro c hc
    simp only [bandLoop, List.mem_append, List.mem_flatMap] at hc
    rcases hc with (⟨b, _, hb⟩ | ⟨b, _, hb⟩) | hc
    · split at hb
      · simp at hb
      · simp only [List.mem_singleton] at hb
        subst hb
        rfl
    · split at hb
      · simp only [List.mem_singleton] at hb
        subst hb
        rfl
      · simp at hb
    · exact ih h c hc

theorem isTexts_drawBuildings (configuration : MapConfiguration) (flinger : Flinger)
    (constructor : Constructor) :
    ∀ c ∈ drawBuildings configuration flinger constructor, isTexts c = false := by
  intro c hc
  simp only [drawBuildings] at hc
  split at hc
  · obtain ⟨b, _, rfl⟩ := List.mem_map.mp hc
    rfl
  · rcases List.mem_cons.mp hc with rfl | hc
    · rfl
    · exact isTexts_bandLoop _ _ _ _ c hc

theorem isTexts_draw_of_wireframe (configuration : MapConfiguration) (scheme : Scheme)
    (flinger : Flinger) (constructor : Constructor)
    (hw : is_wireframe configuration = true) :
    ∀ c ∈ draw configuration scheme flinger constructor, isTexts c = false := by
  intro c hc
  simp only [draw, List.mem_cons, List.mem_append] at hc
  rcases hc with rfl | hc | hc | hc | hc | hc | hc | hc
  · rfl
  · -- ways
    simp only [drawWays, List.mem_flatMap] at hc
    obtain ⟨w, _, hw'⟩ := hc
    split at hw'
    · simp at hw'
    · simp only [List.mem_singleton] at hw'
      subst hw'
      rfl
  · -- layered roads
    simp only [drawLayeredRoads, List.mem_flatMap, List.mem_append] at hc
    obtain ⟨layer, _, hc⟩ := hc
    rcases hc with hc | hc <;>
      · obtain ⟨r, _, rfl⟩ := List.mem_map.mp hc
        rfl
  · obtain ⟨t, _, rfl⟩ := List.mem_map.mp hc
    rfl
  · obtain ⟨t, _, rfl⟩ := List.mem_map.mp hc
    rfl
  · obtain ⟨t, _, rfl⟩ := List.mem_map.mp hc
    rfl
  · exact isTexts_drawBuildings configuration flinger constructor c hc
  · -- points
    simp only [drawPoints, List.mem_append, List.mem_flatMap] at hc
    rcases hc with (hc | hc) | hc
    · obtain ⟨p, _, rfl⟩ := List.mem_map.mp hc
      rfl
    · obtain ⟨p, _, rfl⟩ := List.mem_map.mp hc
      rfl
    · obtain ⟨p, _, hp⟩ := hc
      rw [if_neg (by simp [hw])] at hp
      simp at hp

/-- C8: in wireframe mode `Map.__init__` replaces the scheme-resolved
background by the fixed dark `#111111`, and `Map.draw` emits no text-label
draw call for any point, whatever the configured label mode. -/
theorem claim_C8 (configuration : MapConfiguration) (scheme : Scheme)
    (flinger : Flinger) (constructor : Constructor)
    (hw : is_wireframe configuration = true) :
    backgroundColor scheme configuration = "#111111"
    ∧ ∀ (pt : Point) (occ : Option Occupied) (lm : LabelMode),
        DrawCall.draw_texts pt occ lm ∉ draw configuration scheme flinger constructor := by
  constructor
  · simp [backgroundColor, hw]
  · intro pt occ lm hmem
    have := isTexts_draw_of_wireframe configuration scheme flinger constructor hw _ hmem
    simp [isTexts] at this

/-! ### Claim theorems: the extrusion builder and the building-mode switch -/

theorem bandLoop_eq_bandLoopSpec (buildings : List Building) (scale : ℚ) :
    ∀ (previous_height : ℚ) (hs : List ℚ),
      bandLoop buildings scale previous_height hs
        = bandLoopSpec buildings scale previous_height hs := by
  intro previous_height hs
  induction hs generalizing previous_height with
  | nil => rfl
  | cons h rest ih =>
    simp only [bandLoop, bandLoopSpec]
    rw [ih]
    have hwalls : (fun building => if building.height < h ∨ building.min_height > h
          then ([] : List DrawCall)
          else [DrawCall.draw_walls building h previous_height scale])
        = (fun building => if building.min_height ≤ h ∧ h ≤ building.height
          then [DrawCall.draw_walls building h previous_height scale] else []) := by
      funext b
      by_cases hb : b.height < h ∨ b.min_height > h
      · rw [if_pos hb, if_neg]
        rcases hb with hb | hb
        · exact fun hcon => absurd hcon.2 (not_le.mpr hb)
        · exact fun hcon => absurd hcon.1 (not_le.mpr hb)
      · rw [if_neg hb, if_pos]
        push_neg at hb
        exact ⟨hb.2, hb.1⟩
    rw [hwalls]

/-- C1 (amended): in a non-flat building mode, after the shade group,
`draw_buildings` walks the distinct building heights in ascending sorted
order threading `previous_height` from 0, and at each height `h` invokes
`draw_walls` exactly for the buildings with `min_height ≤ h ≤ height`
(inclusive upper bound) with the band `(previous_height, h)` and scale
`get_scale() / 3`, then `draw_roof` exactly for buildings with
`height = h`. -/
theorem claim_C1 (configuration : MapConfiguration) (flinger : Flinger)
    (constructor : Constructor)
    (h : configuration.building_mode ≠ BuildingMode.flat) :
    drawBuildings configuration flinger constructor
      = DrawCall.shade_group constructor.buildings
          :: bandLoopSpec constructor.buildings (flinger.get_scale none / 3) 0
              (constructor.heights.sort (fun x y : ℚ => x ≤ y))
    ∧ (constructor.heights.sort (fun x y : ℚ => x ≤ y)).Sorted (fun x y : ℚ => x ≤ y)
    ∧ (constructor.heights.sort (fun x y : ℚ => x ≤ y)).Nodup := by
  refine ⟨?_, Finset.sort_sorted _ _, Finset.sort_nodup _ _⟩
  simp only [drawBuildings, if_neg h]
  rw [bandLoop_eq_bandLoopSpec]

/-- C7 (amended): an unrecognized building mode is not rejected: `Map.draw`
performs no mode validation and renders any configuration whose building
mode is not flat exactly as in extruded mode, emitting draw calls
normally. -/
theorem claim_C7 (configuration : MapConfiguration) (scheme : Scheme)
    (flinger : Flinger) (constructor : Constructor)
    (h : configuration.building_mode ≠ BuildingMode.flat) :
    draw configuration scheme flinger constructor
      = draw { configuration with building_mode := BuildingMode.extruded }
          scheme flinger constructor
    ∧ draw configuration scheme flinger constructor ≠ [] := by
  constructor
  · have h3 : drawBuildings { configuration with building_mode := BuildingMode.extruded }
        flinger constructor = drawBuildings configuration flinger constructor := by
      simp only [drawBuildings]
      rw [if_neg h, if_neg (by simp)]
    rw [draw, draw, h3]
    rfl
  · simp [draw]

/-! ### Concrete scenario inputs -/

/-- A concrete projector: identity projection, constant local scale 3,
canvas 100 by 100. -/
def flW : Flinger := ⟨fun c => c, fun _ => 3, (100, 100)⟩

def schemeW : Scheme := ⟨fun _ => "#EEEEEE"⟩

/-- The spec's example building: `height = 9`, `minimum_height = 3`. -/
def b9 : Building := ⟨0, 9, 3⟩

def cfgE : MapConfiguration := ⟨LabelMode.all, BuildingMode.extruded, 0, false⟩

def cfgU : MapConfiguration := ⟨LabelMode.all, BuildingMode.unrecognized, 0, false⟩

def cfgW : MapConfiguration := ⟨LabelMode.all, BuildingMode.flat, 0, true⟩

/-- A constructor carrying only the example building, with height set
`{3, 6, 9}`. -/
def cE : Constructor := ⟨[], [], [], [], [], [b9], {3, 6, 9}, []⟩

def nA : OSMNode := ⟨1, (0, 0)⟩

def nB : OSMNode := ⟨2, (1, 0)⟩

def nC : OSMNode := ⟨3, (0, 1)⟩

def nD : OSMNode := ⟨4, (2, 0)⟩

def nE5 : OSMNode := ⟨5, (0, 2)⟩

def nF : OSMNode := ⟨6, (3, 3)⟩

def mkRoad (ring : List OSMNode) : Road :=
  ⟨[ring], [], 2, 0, ⟨"#FFFFFF", "#DDDDDD"⟩⟩

/-- Four two-node roads meeting at `nA`: a true four-way junction. -/
def roadsW : List Road :=
  [mkRoad [nA, nB], mkRoad [nA, nC], mkRoad [nA, nD], mkRoad [nA, nE5]]

/-- One road with a second outer ring `[nC, nD]` and an inner ring
`[nE5, nF]` besides its first outer ring `[nA, nB]`. -/
def roadsT : List Road :=
  [⟨[[nA, nB], [nC, nD]], [[nE5, nF]], 2, 0, ⟨"#FFFFFF", "#DDDDDD"⟩⟩]

theorem heightsE_sort : cE.heights.sort (fun x y : ℚ => x ≤ y) = [3, 6, 9] := by
  haveI : IsAntisymm ℚ (fun x y : ℚ => x ≤ y) := ⟨fun _ _ => le_antisymm⟩
  have h1 : Multiset.ofList (cE.heights.sort (fun x y : ℚ => x ≤ y))
      = cE.heights.val := Finset.sort_eq _ _
  have h2 : cE.heights.val = Multiset.ofList ([3, 6, 9] : List ℚ) := by decide
  have hperm : (cE.heights.sort (fun x y : ℚ => x ≤ y)).Perm [3, 6, 9] :=
    Multiset.coe_eq_coe.mp (h1.trans h2)
  refine List.eq_of_perm_of_sorted hperm (Finset.sort_sorted _ _) ?_
  decide

/-! ### Counterexamples and witnesses -/

/-- C1 counterexample: against height set `{3, 6, 9}` the example building
(`height = 9`, `min_height = 3`) receives a wall-band draw at `h = 9`
although the claim's strict condition `min_height ≤ h < height` fails there,
and also one at `h = 3` although the claim says it receives band draws only
at `h = 6` and `h = 9`. -/
theorem claim_C1_counterexample :
    DrawCall.draw_walls b9 9 6 1 ∈ drawBuildings cfgE flW cE
    ∧ ¬ (b9.min_height ≤ 9 ∧ (9 : ℚ) < b9.height)
    ∧ DrawCall.draw_walls b9 3 0 1 ∈ drawBuildings cfgE flW cE := by
  have hdb : drawBuildings cfgE flW cE
      = DrawCall.shade_group [b9] :: bandLoop [b9] 1 0 [3, 6, 9] := by
    simp only [drawBuildings]
    have hscale : flW.get_scale none / 3 = (1 : ℚ) := by norm_num [flW]
    rw [if_neg (by decide), heightsE_sort, hscale]
    decide
  refine ⟨?_, by decide, ?_⟩ <;> rw [hdb] <;> decide

/-- C1 witness: the amended band characterization applied to the example
scenario. -/
theorem claim_C1_witness :
    drawBuildings cfgE flW cE
      = DrawCall.shade_group cE.buildings
          :: bandLoopSpec cE.buildings (flW.get_scale none / 3) 0
              (cE.heights.sort (fun x y : ℚ => x ≤ y))
    ∧ (cE.heights.sort (fun x y : ℚ => x ≤ y)).Sorted (fun x y : ℚ => x ≤ y)
    ∧ (cE.heights.sort (fun x y : ℚ => x ≤ y)).Nodup :=
  claim_C1 cfgE flW cE (by decide)

/-- C6 witness: the draw-roads output of the four-way junction scenario is
unchanged between the identity enumeration and the reversing enumeration of
each part set. -/
theorem claim_C6_witness :
    drawRoads flW id roadsW = drawRoads flW List.reverse roadsW :=
  claim_C6 flW roadsW id List.reverse (fun l => List.Perm.refl l)
    (fun l => List.reverse_perm l)

/-- C7 counterexample: with an unrecognized building mode the render
operation does not fail: it emits draw calls, and draws buildings exactly as
in extruded mode. -/
theorem claim_C7_counterexample :
    draw cfgU schemeW flW cE ≠ []
    ∧ drawBuildings cfgU flW cE
      = drawBuildings { cfgU with building_mode := BuildingMode.extruded } flW cE := by
  constructor
  · simp [draw]
  · rfl

/-- C7 witness: the amended no-validation behavior at the unrecognized-mode
configuration. -/
theorem claim_C7_witness :
    draw cfgU schemeW flW cE
      = draw { cfgU with building_mode := BuildingMode.extruded } schemeW flW cE
    ∧ draw cfgU schemeW flW cE ≠ [] :=
  claim_C7 cfgU schemeW flW cE (by decide)

/-- C8 witness: wireframe configuration forces the dark background and
suppresses a concrete text draw call. -/
theorem claim_C8_witness :
    backgroundColor schemeW cfgW = "#111111"
    ∧ DrawCall.draw_texts ⟨0, 1⟩ none LabelMode.all ∉ draw cfgW schemeW flW cE :=
  ⟨(claim_C8 cfgW schemeW flW cE rfl).1,
   (claim_C8 cfgW schemeW flW cE rfl).2 ⟨0, 1⟩ none LabelMode.all⟩

/-- C9 witness: at the four-way junction node the accumulated part count
equals the four incident segment ends, and the part toward `nB` points away
from `nA`. -/
theorem claim_C9_witness :
    (getVals (collectParts flW roadsW) nA).length = incidentEnds roadsW nA
    ∧ (RoadPart.mk (0, 0) (1, 0) 2 3).point_1 = flW.fling nA.coordinates :=
  ⟨(claim_C9 flW roadsW nA).1,
   (claim_C9 flW roadsW nA).2 (RoadPart.mk (0, 0) (1, 0) 2 3) (by decide)⟩

/-- C10 witness: a node lying only on an inner ring accumulates no parts, is
no dictionary key, and dropping all rings but the first outer one leaves the
accumulation unchanged. -/
theorem claim_C10_witness :
    getVals (collectParts flW roadsT) nE5 = []
    ∧ nE5 ∉ mapKeys (collectParts flW roadsT)
    ∧ collectParts flW (roadsT.map (fun road =>
        { road with outers := [road.outers.headD []], inners := [] }))
      = collectParts flW roadsT :=
  claim_C10 flW roadsT nE5 (by decide)

end MapMachine
